import Mathlib

/-!
Verification development for the variation-calculator repository.

The definitions below are a shallow embedding of the TypeScript module
`src/client/src/lib/variationUtils.ts` (the variation classification engine),
together with the data shapes of `src/client/src/lib/types.ts`.  Grid cells are
modelled as `String` (the spreadsheet reader is configured with `defval: ""`,
so every materialised cell is a string; absent cells read as `""` exactly as
`String(row[j] || "")` does in the source).  JavaScript `while` loops whose
counter strictly decreases are modelled with an explicit fuel argument that is
provably large enough, so every definition is a computable structural
recursion.
-/

namespace VariationCalculator

/-! ## JavaScript-level primitives -/

/-- ASCII whitespace test used by `String.prototype.trim` on the inputs this
engine receives. -/
def isWs (c : Char) : Bool := c == ' ' || c == '\t' || c == '\n' || c == '\r'

/-- Model of `String(x).trim()`: strip whitespace from both ends. -/
def jsTrim (s : String) : String :=
  ⟨((s.data.dropWhile isWs).reverse.dropWhile isWs).reverse⟩

abbrev Row := List String
abbrev Grid := List Row

/-- `String(row[j] || "")`: a negative or out-of-range index reads as the
empty string. -/
def jsCell (row : Row) (j : Int) : String :=
  if j < 0 then "" else row.getD j.toNat ""

/-- `rawData[i]` where an absent row behaves as a row with no cells. -/
def rowAt (g : Grid) (i : Int) : Row :=
  if i < 0 then [] else g.getD i.toNat []

/-- The rows visited by `for (let i = startIdx; i < rawData.length; i++)`
bodies that `break` on an absent row: a negative start index hits
`rawData[-1] === undefined` at once and scans nothing. -/
def rowsFrom (g : Grid) (startIdx : Int) : List Row :=
  if startIdx < 0 then [] else g.drop startIdx.toNat

/-- JavaScript `x || dflt` on an optional string: `undefined` and `""` are
both falsy. -/
def jsOr (o : Option String) (dflt : String) : String :=
  match o with
  | some s => if s = "" then dflt else s
  | none => dflt

/-- `Array.prototype.join("")`. -/
def joinAll (l : List String) : String := l.foldl (· ++ ·) ""

/-- The column indices visited by `for (let j = s; j <= e; j++)`. -/
def intRange (s e : Int) : List Int :=
  (List.range (e + 1 - s).toNat).map (fun (k : Nat) => s + (k : Int))

/-- `Array.prototype.slice(s, e)` with JavaScript's negative-index rules. -/
def jsSliceIdx (len : Nat) (i : Int) : Nat :=
  if i < 0 then (len + i).toNat else min i.toNat len

def jsSlice (row : Row) (s e : Int) : Row :=
  (row.take (jsSliceIdx row.length e)).drop (jsSliceIdx row.length s)

/-- `Array.prototype.indexOf`: first index, `-1` when absent. -/
def jsIndexOf (l : List String) (s : String) : Int :=
  let i := l.indexOf s
  if i < l.length then (i : Int) else -1

/-! ## Column codec (`variationUtils.ts` lines 21–41) -/

/-- `columnLetterToIndex`: fold `index = index * 26 + (charCode - 64)` over
the letters, then subtract one.  The source performs no validation and never
throws. -/
def letterListVal (l : List Char) : Int :=
  l.foldl (fun index c => index * 26 + ((c.toNat : Int) - 64)) 0

def columnLetterToIndex (letter : String) : Int :=
  letterListVal letter.data - 1

/-- Body of the `while (index > 0)` loop of `indexToColumnLetter`.  The first
argument is fuel; the counter strictly decreases each iteration, so fuel `n`
suffices to run the loop to completion from counter `n`. -/
def letterGo : Nat → Nat → List Char → List Char
  | 0, _, acc => acc
  | _ + 1, 0, acc => acc
  | fuel + 1, m + 1, acc =>
    letterGo fuel (m / 26) (Char.ofNat (65 + m % 26) :: acc)

/-- `indexToColumnLetter`: `index++`, then repeatedly `index--`, prepend
`String.fromCharCode(65 + index % 26)`, `index = Math.floor(index / 26)`. -/
def indexToColumnLetter (index : Int) : String :=
  ⟨letterGo (index + 1).toNat (index + 1).toNat []⟩

/-! ## Data shapes (`types.ts`) -/

structure FeatureItem where
  name : String
  isSelected : Bool
deriving DecidableEq

structure Feature where
  name : String
  items : List FeatureItem
  isSelected : Bool
deriving DecidableEq

/-- `{ featureColumn, itemColumn, startRow }` as consumed by
`extractFeatures` and `extractColumnPattern`. -/
structure PatternConfig where
  featureColumn : String
  itemColumn : String
  startRow : Int
deriving DecidableEq

/-- `{ featureColumn, itemColumn, startRow, startDataColumn }` as consumed by
`analyzeVariations`. -/
structure AnalyzeConfig where
  featureColumn : String
  itemColumn : String
  startRow : Int
  startDataColumn : String
deriving DecidableEq

/-- A JavaScript object `{ [featureName]: string[] }` in insertion order. -/
abbrev Selection := List (String × List String)

/-! ## `extractFeatures` (lines 47–94) -/

/-- `currentFeature.items.push(...)`: the current feature is always the last
one pushed onto `featureList`, so pushing an item mutates the last entry. -/
def addItemToLast : List Feature → FeatureItem → List Feature
  | [], _ => []
  | [f], it => [{ f with items := f.items ++ [it] }]
  | f :: g :: rest, it => f :: addItemToLast (g :: rest) it

def extractFeaturesLoop (fc ic : Int) : List Row → List Feature → List Feature
  | [], acc => acc
  | row :: rest, acc =>
    if (row.length : Int) ≤ max fc ic then acc
    else
      let featureName := jsTrim (jsCell row fc)
      let itemName := jsTrim (jsCell row ic)
      if featureName = "" ∧ itemName = "" then acc
      else
        let acc1 :=
          if featureName = "" then acc
          else acc ++ [{ name := featureName, items := [], isSelected := false }]
        let acc2 :=
          if itemName ≠ "" ∧ acc1 ≠ [] then
            addItemToLast acc1 { name := itemName, isSelected := true }
          else acc1
        extractFeaturesLoop fc ic rest acc2

def extractFeatures (rawData : Grid) (config : PatternConfig) : List Feature :=
  extractFeaturesLoop (columnLetterToIndex config.featureColumn)
    (columnLetterToIndex config.itemColumn)
    (rowsFrom rawData (config.startRow - 1)) []

/-! ## `extractColumnPattern` (lines 124–166) -/

def extractColumnPatternLoop (fc ic colIdx : Int) (sel : Selection) :
    List Row → Option String → List String → List String
  | [], _, pat => pat
  | row :: rest, cur, pat =>
    if (row.length : Int) ≤ max fc ic then pat
    else
      let featureName := jsTrim (jsCell row fc)
      let itemName := jsTrim (jsCell row ic)
      if featureName = "" ∧ itemName = "" then pat
      else
        let cur' := if featureName = "" then cur else some featureName
        let pat' :=
          match cur' with
          | none => pat
          | some f =>
            match sel.lookup f with
            | none => pat
            | some selectedItems =>
              if itemName ∈ selectedItems then
                pat ++ [if jsTrim (jsCell row colIdx) = "O" then "O" else "-"]
              else pat
        extractColumnPatternLoop fc ic colIdx sel rest cur' pat'

def extractColumnPattern (rawData : Grid) (columnIndex : Int)
    (config : PatternConfig) (selectedFeatures : Selection) : String :=
  joinAll (extractColumnPatternLoop (columnLetterToIndex config.featureColumn)
    (columnLetterToIndex config.itemColumn) columnIndex selectedFeatures
    (rowsFrom rawData (config.startRow - 1)) none [])

/-! ## `findDataColumnRange` (lines 99–119) -/

/-- The inner loop runs `j` from `row.length - 1` down to `startIndex`,
recording `endIndex = max(endIndex, j)` whenever `row[j] && String(row[j]).trim()`
is truthy; only reads happen, so a guarded fold over the index list is an
exact model. -/
def findDataColumnRange (rawData : Grid) (startDataColumn : String) : Int × Int :=
  let startIndex := columnLetterToIndex startDataColumn
  let endIndex := rawData.foldl
    (fun endIndex row =>
      (List.range row.length).reverse.foldl
        (fun (e : Int) (j : Nat) =>
          if startIndex ≤ (j : Int) ∧ row.getD j "" ≠ "" ∧ jsTrim (row.getD j "") ≠ ""
          then max e (j : Int) else e)
        endIndex)
    startIndex
  (startIndex, endIndex)

/-! ## `analyzeVariations` (lines 191–369) -/

structure VariationGroupIn where
  id : String
  name : String
  selectedFeatures : Selection
deriving DecidableEq

structure FeatureRowOut where
  feature : String
  item : String
  values : List String
deriving DecidableEq

structure ColumnPatternOut where
  columnLetter : String
  gradeName : String
  variationGroup : String
  backgroundColor : String
deriving DecidableEq

structure VariationGroupOut where
  id : String
  name : String
  color : String
deriving DecidableEq

structure AnalysisResult where
  headerRows : List Row
  featureRows : List FeatureRowOut
  columnPatterns : List ColumnPatternOut
  variationGroups : List VariationGroupOut
deriving DecidableEq

/-- The fixed palette (lines 293–302). -/
def colors : List String :=
  ["#FFE5E5", "#E5F3FF", "#E5FFE5", "#FFF9E5",
   "#F0E5FF", "#FFE5F5", "#E5FFFF", "#FFE5CC"]

/-- `"ABCDEFGHIJKLMNOPQRSTUVWXYZ".split("")` (line 323). -/
def groupLetters : List String :=
  ["A", "B", "C", "D", "E", "F", "G", "H", "I", "J", "K", "L", "M",
   "N", "O", "P", "Q", "R", "S", "T", "U", "V", "W", "X", "Y", "Z"]

/-- `selectedFeatureSet` (lines 234–247): feature names in first-seen order
across all groups. -/
def selectedFeatureSetOf (variationGroups : List VariationGroupIn) : List String :=
  variationGroups.foldl
    (fun s g => g.selectedFeatures.foldl
      (fun s fi => if fi.1 ∈ s then s else s ++ [fi.1]) s) []

/-- `if (!selectedItemsMap[fname]) selectedItemsMap[fname] = new Set();` -/
def ensureKey (m : Selection) (f : String) : Selection :=
  if (m.lookup f).isSome then m else m ++ [(f, [])]

/-- `selectedItemsMap[fname].add(item)`: insert into the feature's item set
(first-seen order, no duplicates). -/
def addSelItem (m : Selection) (f item : String) : Selection :=
  m.map (fun kv =>
    if kv.1 = f then (kv.1, if item ∈ kv.2 then kv.2 else kv.2 ++ [item]) else kv)

/-- `selectedItemsMap` (lines 235–247); `selectedItemsMapForPattern`
(lines 306–309) converts each `Set` to an array, which is the identity here. -/
def selectedItemsMapOf (variationGroups : List VariationGroupIn) : Selection :=
  variationGroups.foldl
    (fun m g => g.selectedFeatures.foldl
      (fun m fi => fi.2.foldl (fun m it => addSelItem m fi.1 it) (ensureKey m fi.1)) m)
    []

/-- The `featureRows` extraction loop (lines 255–288). -/
def featureRowsLoop (fc ic s e : Int) (featSet : List String) (itemsMap : Selection) :
    List Row → Option String → List FeatureRowOut → List FeatureRowOut
  | [], _, acc => acc
  | row :: rest, cur, acc =>
    if (row.length : Int) ≤ max fc ic then acc
    else
      let featureName := jsTrim (jsCell row fc)
      let itemName := jsTrim (jsCell row ic)
      if featureName = "" ∧ itemName = "" then acc
      else
        let cur' := if featureName = "" then cur else some featureName
        let acc' :=
          match cur' with
          | none => acc
          | some f =>
            if f ∉ featSet then acc
            else if itemName = "" then acc
            else
              match itemsMap.lookup f with
              | none => acc
              | some selectedItems =>
                if itemName ∉ selectedItems then acc
                else acc ++ [{ feature := f, item := itemName,
                               values := (intRange s e).map (fun j => jsTrim (jsCell row j)) }]
        featureRowsLoop fc ic s e featSet itemsMap rest cur' acc'

/-- `columnPatternMap` (lines 305–318): each data column paired with its
pattern, in left-to-right column order. -/
def columnPatternMapOf (rawData : Grid) (config : AnalyzeConfig)
    (variationGroups : List VariationGroupIn) : List (Int × String) :=
  let range := findDataColumnRange rawData config.startDataColumn
  let pcfg : PatternConfig :=
    ⟨config.featureColumn, config.itemColumn, config.startRow⟩
  (intRange range.1 range.2).map
    (fun colIndex =>
      (colIndex, extractColumnPattern rawData colIndex pcfg
        (selectedItemsMapOf variationGroups)))

/-- One iteration of the grouping pass (lines 325–330): a pattern not yet in
the map is appended with id `groupLetters[groupCounter % groupLetters.length]`,
where `groupCounter` counts the entries inserted so far (the counter is
incremented exactly when an entry is inserted, so it always equals the map
size). -/
def bpgStep (m : List (String × String)) (p : String) : List (String × String) :=
  if (m.lookup p).isSome then m
  else m ++ [(p, groupLetters.getD (m.length % groupLetters.length) "")]

/-- The grouping pass (lines 321–330): walk the patterns in insertion order,
creating a group per first-seen pattern. -/
def buildPatternGroups (ps : List String) : List (String × String) :=
  ps.foldl bpgStep []

def patternToGroupMapOf (rawData : Grid) (config : AnalyzeConfig)
    (variationGroups : List VariationGroupIn) : List (String × String) :=
  buildPatternGroups ((columnPatternMapOf rawData config variationGroups).map Prod.snd)

/-- The output assembly loop (lines 340–354). -/
def columnPatternsOf (rawData : Grid) (config : AnalyzeConfig)
    (variationGroups : List VariationGroupIn) : List ColumnPatternOut :=
  let startRowIndex := config.startRow - 1
  let range := findDataColumnRange rawData config.startDataColumn
  let cpm := columnPatternMapOf rawData config variationGroups
  let ptg := patternToGroupMapOf rawData config variationGroups
  (intRange range.1 range.2).map
    (fun colIndex =>
      let columnLetter := indexToColumnLetter colIndex
      let gradeName := jsTrim (jsCell (rowAt rawData (startRowIndex - 2)) colIndex)
      let pattern := jsOr (cpm.lookup colIndex) ""
      let variationGroup := jsOr (ptg.lookup pattern) "?"
      let colorIndex := jsIndexOf groupLetters variationGroup
      let backgroundColor := colors.getD ((max 0 colorIndex).toNat % colors.length) ""
      { columnLetter := columnLetter, gradeName := gradeName,
        variationGroup := variationGroup, backgroundColor := backgroundColor })

def analyzeVariations (rawData : Grid) (config : AnalyzeConfig)
    (variationGroups : List VariationGroupIn) : AnalysisResult :=
  let featureColIndex := columnLetterToIndex config.featureColumn
  let itemColIndex := columnLetterToIndex config.itemColumn
  let startRowIndex := config.startRow - 1
  let range := findDataColumnRange rawData config.startDataColumn
  let headerRows :=
    (rawData.take startRowIndex.toNat).map (fun row => jsSlice row range.1 (range.2 + 1))
  let featureRows :=
    featureRowsLoop featureColIndex itemColIndex range.1 range.2
      (selectedFeatureSetOf variationGroups) (selectedItemsMapOf variationGroups)
      (rowsFrom rawData startRowIndex) none []
  let columnPatterns := columnPatternsOf rawData config variationGroups
  let variationGroupsWithColor :=
    variationGroups.enum.map
      (fun ig => { id := ig.2.id, name := ig.2.name,
                   color := colors.getD (ig.1 % colors.length) "" : VariationGroupOut })
  { headerRows := headerRows, featureRows := featureRows,
    columnPatterns := columnPatterns, variationGroups := variationGroupsWithColor }

/-! Section: RelabelManager data shapes (`src/unnamed/part_000`) and the
rename operation. -/

structure MapLabel where
  id : String
  pattern : String
  color : String
  columns : List String
deriving DecidableEq

structure VariantLabel where
  id : Int
  pattern : String
  color : String
  columns : List String
deriving DecidableEq

structure ColumnMappingEntry where
  mapId : String
  variantId : Int
deriving DecidableEq

structure VariationAnalysis where
  maps : List MapLabel
  variants : List VariantLabel
  columnMappings : List (String × ColumnMappingEntry)
deriving DecidableEq

/-- Modelled from the spec: the Analyze page (`src/unnamed/part_007`,
`handleUpdateLabels`) imports `updateLabels` from the variation utilities, but
no file under `src/` contains its body.  Spec §4.5 describes it: a partial
mapping of old id to new id is applied to every group record and to every
column-mapping entry together; ids not present in the rename mapping are left
unchanged. -/
def applyRename (renames : List (String × String)) (i : String) : String :=
  match renames.lookup i with
  | some n => n
  | none => i

/-- Modelled from the spec: the variant-axis counterpart of `applyRename`
(variant ids are numbers in `src/unnamed/part_000`). -/
def applyRenameVariant (renames : List (Int × Int)) (i : Int) : Int :=
  match renames.lookup i with
  | some n => n
  | none => i

/-- Modelled from the spec: `updateLabels` per §4.5 — rewrite every map id,
every variant id and every column-mapping reference in one step, producing a
new analysis. -/
def updateLabels (analysis : VariationAnalysis) (mapRenames : List (String × String))
    (variantRenames : List (Int × Int)) : VariationAnalysis :=
  { maps := analysis.maps.map (fun m => { m with id := applyRename mapRenames m.id }),
    variants := analysis.variants.map
      (fun v => { v with id := applyRenameVariant variantRenames v.id }),
    columnMappings := analysis.columnMappings.map (fun kv =>
      (kv.1, { mapId := applyRename mapRenames kv.2.mapId,
               variantId := applyRenameVariant variantRenames kv.2.variantId })) }

/-! Section: proof-side helper definitions. -/

/-- Natural-number value of a letter list under the codec's fold, used to
reason about `columnLetterToIndex` on uppercase input. -/
def natVal (l : List Char) : Nat :=
  l.foldl (fun a c => a * 26 + (c.toNat - 64)) 0

/-- Distinct patterns in first-seen order: the keys `patternToGroupMap`
acquires, in insertion order. -/
def firstSeen (ps : List String) : List String :=
  ps.foldl (fun s p => if p ∈ s then s else s ++ [p]) []

/-- Canonical form of the grouping map: the k-th first-seen pattern is paired
with `groupLetters[k % 26]`. -/
def letterAssignFrom (k : Nat) : List String → List (String × String)
  | [] => []
  | p :: rest =>
    (p, groupLetters.getD (k % groupLetters.length) "") :: letterAssignFrom (k + 1) rest

def letterAssignment (l : List String) : List (String × String) :=
  letterAssignFrom 0 l

/-- Feature names seen by the shared row scan of `extractFeatures`,
`extractColumnPattern` and the featureRows loop (all three break on the same
conditions). -/
def scannedFeatureNames (fc ic : Int) : List Row → List String
  | [] => []
  | row :: rest =>
    if (row.length : Int) ≤ max fc ic then []
    else
      let featureName := jsTrim (jsCell row fc)
      let itemName := jsTrim (jsCell row ic)
      if featureName = "" ∧ itemName = "" then []
      else
        (if featureName = "" then [] else [featureName]) ++ scannedFeatureNames fc ic rest

/-! Section: concrete inputs used by counterexamples and witnesses. -/

/-- The grid of Scenario A in §8 of the spec. -/
def scenA : Grid := [["T", "X", "O", "-"], ["", "Y", "O", "O"]]

/-- Scenario A configuration: feature column `A`, item column `B`, scanning
starts at the first row (the code's 1-based `startRow` is `1`). -/
def pcfgA : PatternConfig := ⟨"A", "B", 1⟩

def selA : Selection := [("T", ["X", "Y"])]

def acfgA : AnalyzeConfig := ⟨"A", "B", 1, "C"⟩

def groupsA : List VariationGroupIn := [⟨"g1", "G1", [("T", ["X", "Y"])]⟩]

/-- A one-row grid with feature `T`, item `X` and an applied mark in column
index 2. -/
def gridTXO : Grid := [["T", "X", "O"]]

/-- A grid producing 27 pairwise distinct column patterns: five item rows
under one feature, and data columns 2..28 whose marks encode the bits of the
column number. -/
def c3grid : Grid :=
  (List.range 5).map (fun r =>
    [if r = 0 then "F" else "", "I" ++ toString r] ++
    (List.range 27).map (fun c => if Nat.testBit c r then "O" else "-"))

def c3sel : Selection := [("F", ["I0", "I1", "I2", "I3", "I4"])]

def c3groups : List VariationGroupIn := [⟨"g", "g", c3sel⟩]

/-- A selection whose only item never occurs in the grid, so sampling yields
zero rows. -/
def c4sel : Selection := [("T", ["ZZZ"])]

def c4groups : List VariationGroupIn := [⟨"g1", "G1", c4sel⟩]

/-- A selection mentioning feature `M`, which is absent from `gridTXO`. -/
def c5sel : Selection := [("T", ["X"]), ("M", ["Z"])]

def c8groups : List VariationGroupIn := [⟨"g1", "G1", [("T", ["X"])]⟩]

/-- A small RelabelManager analysis for the C9 witness. -/
def c9analysis : VariationAnalysis :=
  { maps := [⟨"A", "O|-", "#FFD700", ["V"]⟩, ⟨"B", "-|O", "#9370DB", ["W"]⟩],
    variants := [⟨0, "O|-", "#FFD700", ["V"]⟩],
    columnMappings := [("V", ⟨"A", 0⟩), ("W", ⟨"B", 0⟩)] }

/-! Section: codec lemmas. -/

theorem letterGo_irrel : ∀ (n f1 f2 : Nat) (acc : List Char), n ≤ f1 → n ≤ f2 →
    letterGo f1 n acc = letterGo f2 n acc := by
  intro n
  induction n using Nat.strong_induction_on with
  | _ n ih =>
    intro f1 f2 acc h1 h2
    cases n with
    | zero => cases f1 <;> cases f2 <;> rfl
    | succ m =>
      cases f1 with
      | zero => omega
      | succ g1 =>
        cases f2 with
        | zero => omega
        | succ g2 =>
          simp only [letterGo]
          exact ih (m / 26) (by omega) g1 g2 _ (by omega) (by omega)

theorem letterGo_step (m : Nat) (acc : List Char) :
    letterGo (m + 1) (m + 1) acc =
      letterGo (m / 26) (m / 26) (Char.ofNat (65 + m % 26) :: acc) := by
  simp only [letterGo]
  exact letterGo_irrel (m / 26) m (m / 26) _ (Nat.div_le_self m 26) le_rfl

theorem letterGo_append (n : Nat) : ∀ acc, letterGo n n acc = letterGo n n [] ++ acc := by
  induction n using Nat.strong_induction_on with
  | _ n ih =>
    intro acc
    cases n with
    | zero => rfl
    | succ m =>
      rw [letterGo_step, letterGo_step]
      rw [ih (m / 26) (by omega) (Char.ofNat (65 + m % 26) :: acc),
          ih (m / 26) (by omega) (Char.ofNat (65 + m % 26) :: [])]
      simp

theorem char_ofNat_toNat_26 : ∀ k, k < 26 → (Char.ofNat (65 + k)).toNat = 65 + k := by
  decide

theorem natVal_append (l : List Char) (c : Char) :
    natVal (l ++ [c]) = natVal l * 26 + (c.toNat - 64) := by
  simp [natVal, List.foldl_append]

theorem natVal_letterGo (n : Nat) : natVal (letterGo n n []) = n := by
  induction n using Nat.strong_induction_on with
  | _ n ih =>
    cases n with
    | zero => rfl
    | succ m =>
      rw [letterGo_step, letterGo_append, natVal_append,
          ih (m / 26) (by omega), char_ofNat_toNat_26 (m % 26) (by omega)]
      omega

theorem letterGo_uppercase (n : Nat) :
    ∀ c ∈ letterGo n n [], 65 ≤ c.toNat ∧ c.toNat ≤ 90 := by
  induction n using Nat.strong_induction_on with
  | _ n ih =>
    cases n with
    | zero => intro c hc; simp [letterGo] at hc
    | succ m =>
      intro c hc
      rw [letterGo_step, letterGo_append] at hc
      rcases List.mem_append.mp hc with h | h
      · exact ih (m / 26) (by omega) c h
      · have : c = Char.ofNat (65 + m % 26) := by simpa using h
        rw [this, char_ofNat_toNat_26 (m % 26) (by omega)]
        omega

theorem foldl_int_eq_natVal : ∀ (l : List Char) (a : Nat), (∀ c ∈ l, 65 ≤ c.toNat) →
    l.foldl (fun index c => index * 26 + ((c.toNat : Int) - 64)) (a : Int) =
      ((l.foldl (fun a c => a * 26 + (c.toNat - 64)) a : Nat) : Int) := by
  intro l
  induction l with
  | nil => intro a _; rfl
  | cons c rest ih =>
    intro a h
    have hc : 65 ≤ c.toNat := h c (by simp)
    simp only [List.foldl_cons]
    have he : (a : Int) * 26 + ((c.toNat : Int) - 64) =
        ((a * 26 + (c.toNat - 64) : Nat) : Int) := by omega
    rw [he]
    exact ih _ (fun d hd => h d (by simp [hd]))

theorem letterListVal_eq_natVal (l : List Char) (h : ∀ c ∈ l, 65 ≤ c.toNat) :
    letterListVal l = (natVal l : Int) := by
  have := foldl_int_eq_natVal l 0 h
  simpa [letterListVal, natVal] using this

theorem codec_roundtrip_index (i : Nat) :
    columnLetterToIndex (indexToColumnLetter (i : Int)) = (i : Int) := by
  have h1 : ((i : Int) + 1).toNat = i + 1 := by omega
  unfold indexToColumnLetter
  rw [h1]
  unfold columnLetterToIndex
  have hup := letterGo_uppercase (i + 1)
  have h2 : (String.mk (letterGo (i + 1) (i + 1) [])).data = letterGo (i + 1) (i + 1) [] := rfl
  rw [h2, letterListVal_eq_natVal _ (fun c hc => (hup c hc).1), natVal_letterGo]
  omega

theorem codec_roundtrip_letters (l : List Char)
    (h : ∀ c ∈ l, 65 ≤ c.toNat ∧ c.toNat ≤ 90) :
    letterGo (natVal l) (natVal l) [] = l := by
  induction l using List.reverseRecOn with
  | nil => rfl
  | append_singleton xs x ih =>
    have hx := h x (by simp)
    have hNat : natVal (xs ++ [x]) = natVal xs * 26 + (x.toNat - 64) := natVal_append xs x
    obtain ⟨m, hm⟩ : ∃ m, natVal (xs ++ [x]) = m + 1 :=
      ⟨natVal (xs ++ [x]) - 1, by omega⟩
    have hdiv : m / 26 = natVal xs := by omega
    have hmod : 65 + m % 26 = x.toNat := by omega
    rw [hm, letterGo_step, letterGo_append, hdiv, hmod, Char.ofNat_toNat,
        ih (fun c hc => h c (by simp [hc]))]

theorem codec_roundtrip_string (s : String)
    (h : ∀ c ∈ s.data, 65 ≤ c.toNat ∧ c.toNat ≤ 90) :
    indexToColumnLetter (columnLetterToIndex s) = s := by
  unfold columnLetterToIndex indexToColumnLetter
  rw [letterListVal_eq_natVal s.data (fun c hc => (h c hc).1)]
  have h1 : ((natVal s.data : Int) - 1 + 1).toNat = natVal s.data := by omega
  rw [h1, codec_roundtrip_letters s.data h]

theorem indexToColumnLetter_injOn (a b : Int) (ha : 0 ≤ a) (hb : 0 ≤ b)
    (h : indexToColumnLetter a = indexToColumnLetter b) : a = b := by
  have ha2 : a = ((a.toNat : Nat) : Int) := by omega
  have hb2 : b = ((b.toNat : Nat) : Int) := by omega
  have h2 : columnLetterToIndex (indexToColumnLetter ((a.toNat : Nat) : Int)) =
      columnLetterToIndex (indexToColumnLetter ((b.toNat : Nat) : Int)) := by
    rw [← ha2, ← hb2, h]
  rw [codec_roundtrip_index, codec_roundtrip_index] at h2
  omega

/-! Section: association-list lookup lemmas. -/

theorem lookup_append {α β : Type} [BEq α] (l1 l2 : List (α × β)) (a : α) :
    (l1 ++ l2).lookup a = (l1.lookup a).or (l2.lookup a) := by
  induction l1 with
  | nil => simp [List.lookup]
  | cons x xs ih =>
    obtain ⟨k, v⟩ := x
    simp only [List.cons_append, List.lookup]
    cases a == k
    · simpa using ih
    · simp

theorem lookup_isSome_iff_mem {α β : Type} [BEq α] [LawfulBEq α]
    (l : List (α × β)) (a : α) :
    (l.lookup a).isSome ↔ a ∈ l.map Prod.fst := by
  induction l with
  | nil => simp [List.lookup]
  | cons x xs ih =>
    obtain ⟨k, v⟩ := x
    simp only [List.lookup, List.map_cons, List.mem_cons]
    by_cases h : a = k
    · simp [h]
    · have hb : (a == k) = false := beq_eq_false_iff_ne.mpr h
      simp [hb, h, ih]

theorem lookup_mem_values {α β : Type} [BEq α] (l : List (α × β)) (a : α) (v : β)
    (h : l.lookup a = some v) : v ∈ l.map Prod.snd := by
  induction l with
  | nil => simp [List.lookup] at h
  | cons x xs ih =>
    obtain ⟨k, w⟩ := x
    simp only [List.lookup] at h
    simp only [List.map_cons, List.mem_cons]
    cases hak : a == k
    · rw [hak] at h
      exact Or.inr (ih h)
    · rw [hak] at h
      simp only [Option.some.injEq] at h
      exact Or.inl h.symm

theorem lookup_map_pair {α β : Type} [BEq α] [LawfulBEq α] (l : List α) (f : α → β)
    (c : α) (h : c ∈ l) : (l.map (fun x => (x, f x))).lookup c = some (f c) := by
  induction l with
  | nil => simp at h
  | cons x xs ih =>
    simp only [List.map_cons, List.lookup]
    by_cases hx : c = x
    · subst hx
      simp
    · have hb : (c == x) = false := beq_eq_false_iff_ne.mpr hx
      rw [hb]
      exact ih (by rcases List.mem_cons.mp h with h2 | h2; exact absurd h2 hx; exact h2)

theorem lookup_filter_ne {β : Type} (sel : List (String × β)) (F g : String)
    (hg : g ≠ F) :
    ((sel.filter (fun kv => kv.1 != F)).lookup g) = sel.lookup g := by
  induction sel with
  | nil => rfl
  | cons x xs ih =>
    obtain ⟨k, v⟩ := x
    by_cases hk : k = F
    · subst hk
      have hgk : (g == k) = false := beq_eq_false_iff_ne.mpr hg
      simp only [List.filter, bne_self_eq_false, List.lookup, hgk]
      exact ih
    · have hkF : (k != F) = true := bne_iff_ne.mpr hk
      simp only [List.filter, hkF, List.lookup]
      cases g == k
      · simpa using ih
      · rfl

/-! Section: grouping-pass lemmas. -/

theorem bpg_foldl_lookup_mono (ps : List String) :
    ∀ m q, ((m : List (String × String)).lookup q).isSome →
      ((ps.foldl bpgStep m).lookup q).isSome := by
  induction ps with
  | nil => intro m q h; exact h
  | cons p rest ih =>
    intro m q h
    apply ih
    unfold bpgStep
    by_cases hp : (m.lookup q).isSome
    · split
      · exact h
      · obtain ⟨v, hv⟩ := Option.isSome_iff_exists.mp h
        rw [lookup_append, hv]
        rfl
    · exact absurd h hp

theorem bpg_foldl_lookup_of_mem (ps : List String) :
    ∀ (m : List (String × String)) p, p ∈ ps →
      ((ps.foldl bpgStep m).lookup p).isSome := by
  induction ps with
  | nil => intro m p h; simp at h
  | cons q rest ih =>
    intro m p h
    rcases List.mem_cons.mp h with rfl | h2
    · simp only [List.foldl_cons]
      apply bpg_foldl_lookup_mono rest
      unfold bpgStep
      by_cases hp : (m.lookup p).isSome
      · rw [if_pos hp]; exact hp
      · rw [if_neg hp]
        rw [lookup_append, Option.not_isSome_iff_eq_none.mp hp]
        simp [List.lookup]
    · exact ih _ p h2

theorem groupLetters_length_pos : 0 < groupLetters.length := by decide

theorem bpg_foldl_values (ps : List String) :
    ∀ (m : List (String × String)) v, v ∈ (ps.foldl bpgStep m).map Prod.snd →
      v ∈ m.map Prod.snd ∨ v ∈ groupLetters := by
  induction ps with
  | nil => intro m v h; exact Or.inl h
  | cons p rest ih =>
    intro m v h
    simp only [List.foldl_cons] at h
    rcases ih _ v h with h2 | h2
    · unfold bpgStep at h2
      by_cases hp : (m.lookup p).isSome
      · rw [if_pos hp] at h2
        exact Or.inl h2
      · rw [if_neg hp] at h2
        simp only [List.map_append] at h2
        rcases List.mem_append.mp h2 with h3 | h3
        · exact Or.inl h3
        · right
          have hv : v = groupLetters.getD (m.length % groupLetters.length) "" := by
            simpa using h3
          have hlt : m.length % groupLetters.length < groupLetters.length :=
            Nat.mod_lt _ groupLetters_length_pos
          rw [hv, List.getD_eq_getElem groupLetters "" hlt]
          exact List.getElem_mem hlt
    · exact Or.inr h2

theorem letterAssignFrom_map_fst (k : Nat) (l : List String) :
    (letterAssignFrom k l).map Prod.fst = l := by
  induction l generalizing k with
  | nil => rfl
  | cons x xs ih => simp [letterAssignFrom, ih]

theorem letterAssignFrom_length (k : Nat) (l : List String) :
    (letterAssignFrom k l).length = l.length := by
  induction l generalizing k with
  | nil => rfl
  | cons x xs ih => simp [letterAssignFrom, ih]

theorem letterAssignFrom_append (k : Nat) (l1 l2 : List String) :
    letterAssignFrom k (l1 ++ l2) =
      letterAssignFrom k l1 ++ letterAssignFrom (k + l1.length) l2 := by
  induction l1 generalizing k with
  | nil => simp [letterAssignFrom]
  | cons x xs ih =>
    simp only [List.cons_append, letterAssignFrom, List.length_cons, List.append_eq]
    rw [ih (k + 1)]
    have h2 : k + 1 + xs.length = k + (xs.length + 1) := by omega
    rw [h2]

theorem bpg_canonical_aux (ps : List String) : ∀ keys : List String,
    ps.foldl bpgStep (letterAssignFrom 0 keys) =
      letterAssignFrom 0 (ps.foldl (fun s p => if p ∈ s then s else s ++ [p]) keys) := by
  induction ps with
  | nil => intro keys; rfl
  | cons p rest ih =>
    intro keys
    simp only [List.foldl_cons]
    have hfst := letterAssignFrom_map_fst 0 keys
    by_cases hp : p ∈ keys
    · have hs : ((letterAssignFrom 0 keys).lookup p).isSome := by
        rw [lookup_isSome_iff_mem, hfst]; exact hp
      rw [show bpgStep (letterAssignFrom 0 keys) p = letterAssignFrom 0 keys from by
        unfold bpgStep; rw [if_pos hs]]
      rw [if_pos hp]
      exact ih keys
    · have hn : ¬ ((letterAssignFrom 0 keys).lookup p).isSome := by
        rw [lookup_isSome_iff_mem, hfst]; exact hp
      have hstep : bpgStep (letterAssignFrom 0 keys) p = letterAssignFrom 0 (keys ++ [p]) := by
        unfold bpgStep
        rw [if_neg hn, letterAssignFrom_append, letterAssignFrom_length]
        simp [letterAssignFrom]
      rw [hstep, if_neg hp]
      exact ih (keys ++ [p])

theorem bpg_canonical (ps : List String) :
    buildPatternGroups ps = letterAssignment (firstSeen ps) := by
  have h := bpg_canonical_aux ps []
  simpa [buildPatternGroups, letterAssignment, firstSeen, letterAssignFrom] using h

theorem letterAssignFrom_map_snd (k : Nat) (l : List String) :
    (letterAssignFrom k l).map Prod.snd =
      (List.range l.length).map
        (fun j => groupLetters.getD ((k + j) % groupLetters.length) "") := by
  induction l generalizing k with
  | nil => rfl
  | cons x xs ih =>
    simp only [letterAssignFrom, List.map_cons, List.length_cons,
      List.range_succ_eq_map, List.map_map, ih (k + 1), Nat.add_zero]
    congr 1
    apply List.map_congr_left
    intro j _
    simp only [Function.comp_apply, Nat.succ_eq_add_one]
    have h2 : k + 1 + j = k + (j + 1) := by omega
    rw [h2]

theorem groupLetters_getD_inj : ∀ i, i < 26 → ∀ j, j < 26 →
    groupLetters.getD i "" = groupLetters.getD j "" → i = j := by
  decide

theorem bpg_snd_nodup (ps : List String) (h : (firstSeen ps).length ≤ 26) :
    ((buildPatternGroups ps).map Prod.snd).Nodup := by
  rw [bpg_canonical, letterAssignment, letterAssignFrom_map_snd]
  apply List.Nodup.map_on
  · intro x hx y hy hxy
    rw [List.mem_range] at hx hy
    have hx26 : x < 26 := lt_of_lt_of_le hx h
    have hy26 : y < 26 := lt_of_lt_of_le hy h
    have hgl : groupLetters.length = 26 := rfl
    rw [hgl] at hxy
    rw [Nat.zero_add, Nat.zero_add, Nat.mod_eq_of_lt hx26, Nat.mod_eq_of_lt hy26] at hxy
    exact groupLetters_getD_inj x hx26 y hy26 hxy
  · exact List.nodup_range _

/-! Section: claim theorems. -/

/-- C1, counterexample: on Scenario A's grid the pattern built for column C
(index 2) is the bare concatenation `"OO"`, not the claimed delimited string
`"O|O"` — `extractColumnPattern` joins marks with `join("")`. -/
theorem c1_counterexample :
    extractColumnPattern scenA 2 pcfgA selA = "OO" ∧
    extractColumnPattern scenA 2 pcfgA selA ≠ "O|O" := by
  decide

/-- C1, amended: on Scenario A's grid the patterns are `"OO"` for column C
and `"-O"` for column D (marks concatenated with no delimiter); grouping
yields exactly 2 distinct groups, with column C's pattern receiving id `"A"`
first and column D's receiving `"B"`. -/
theorem c1_scenarioA :
    extractColumnPattern scenA 2 pcfgA selA = "OO" ∧
    extractColumnPattern scenA 3 pcfgA selA = "-O" ∧
    (analyzeVariations scenA acfgA groupsA).columnPatterns.map
      (fun cp => (cp.columnLetter, cp.variationGroup)) = [("C", "A"), ("D", "B")] ∧
    ((analyzeVariations scenA acfgA groupsA).columnPatterns.map
      (fun cp => cp.variationGroup)).dedup.length = 2 := by
  decide

/-- C2, counterexample: a cell holding `" o "` trims to `"o"`, which equals
`"O"` case-insensitively, yet the pattern builder emits the not-applied mark
`"-"` — the comparison `cellValue === "O"` is case-sensitive. -/
theorem c2_counterexample :
    extractColumnPattern [["T", "X", " o "]] 2 pcfgA [("T", ["X"])] = "-" ∧
    jsTrim " o " = "o" := by
  decide

/-- C2, amended: for every cell value, the mark emitted by the pattern
builder is `"O"` exactly when the trimmed value equals `"O"` case-sensitively
(so lowercase `"o"` gives `"-"`), and an absent cell gives `"-"`. -/
theorem c2_applied_mark (v : String) :
    extractColumnPattern [["T", "X", v]] 2 pcfgA [("T", ["X"])] =
      (if jsTrim v = "O" then "O" else "-") ∧
    extractColumnPattern [["T", "X"]] 2 pcfgA [("T", ["X"])] = "-" := by
  constructor
  · unfold extractColumnPattern
    simp only [extractColumnPatternLoop, rowsFrom, pcfgA]
    norm_num
    have hA : columnLetterToIndex "A" = 0 := by decide
    have hB : columnLetterToIndex "B" = 1 := by decide
    rw [hA, hB]
    have h1 : jsCell ["T", "X", v] 0 = "T" := rfl
    have h2 : jsCell ["T", "X", v] 1 = "X" := rfl
    have h3 : jsCell ["T", "X", v] 2 = v := rfl
    rw [h1, h2, h3]
    have hT : jsTrim "T" = "T" := by decide
    have hX : jsTrim "X" = "X" := by decide
    rw [hT, hX]
    rw [if_neg (by decide : ¬(("T" : String) = "" ∧ ("X" : String) = ""))]
    rw [if_neg (by decide : ¬(("T" : String) = ""))]
    rw [if_neg (by norm_num : ¬((3 : Int) ≤ 0 ∨ (3 : Int) ≤ 1))]
    norm_num
    split <;> rfl
  · decide

/-- C6, counterexample: for the valid lowercase letter string `"a"` the
round trip gives `indexToColumnLetter (columnLetterToIndex "a") = "AG"`, not
the uppercase form `"A"` — `columnLetterToIndex` folds raw char codes without
case normalisation, so `"a"` maps to index 32. -/
theorem c6_counterexample :
    indexToColumnLetter (columnLetterToIndex "a") = "AG" ∧ ("AG" : String) ≠ "A" ∧
    columnLetterToIndex "a" = 32 := by
  decide

/-- C6, amended: the codec round-trips in both directions on its valid
domain with lowercase excluded: for every natural `i`, converting `i` to
letters and back yields `i`; and for every non-empty string of uppercase
letters `A`–`Z`, converting to an index and back yields the same string. -/
theorem c6_codec_roundtrip (i : Nat) (s : String)
    (hs : s ≠ "" ∧ ∀ c ∈ s.data, 65 ≤ c.toNat ∧ c.toNat ≤ 90) :
    columnLetterToIndex (indexToColumnLetter (i : Int)) = (i : Int) ∧
    indexToColumnLetter (columnLetterToIndex s) = s :=
  ⟨codec_roundtrip_index i, codec_roundtrip_string s hs.2⟩

/-- C6, witness: the round trip holds concretely at `i = 27` and `s = "AB"`. -/
theorem c6_codec_roundtrip_witness :
    (("AB" : String) ≠ "" ∧ ∀ c ∈ "AB".data, 65 ≤ c.toNat ∧ c.toNat ≤ 90) ∧
    (columnLetterToIndex (indexToColumnLetter ((27 : Nat) : Int)) = ((27 : Nat) : Int) ∧
     indexToColumnLetter (columnLetterToIndex "AB") = "AB") :=
  ⟨by decide, c6_codec_roundtrip 27 "AB" ⟨by decide, by decide⟩⟩

/-- C7, counterexample: `columnLetterToIndex` does not fail on invalid input;
it silently returns `-1` for the empty string, and for the non-alphabetic
string `"A1"` it returns the same index as the valid letter `"K"`. -/
theorem c7_counterexample :
    columnLetterToIndex "" = -1 ∧
    columnLetterToIndex "A1" = columnLetterToIndex "K" := by
  decide

/-- C7, amended: `columnLetterToIndex` performs no validation and raises no
error: the empty string yields the silent default `-1`, and non-alphabetic
characters are folded through `charCode - 64` like any other character
(lowercase `"a"` yields 32, `"A1"` yields 10). -/
theorem c7_no_validation :
    columnLetterToIndex "" = -1 ∧
    columnLetterToIndex "a" = 32 ∧
    columnLetterToIndex "A1" = 10 ∧
    columnLetterToIndex "K" = 10 := by
  decide

set_option maxRecDepth 10000 in
/-- C3, counterexample: a grid producing 27 pairwise distinct column
patterns. The first and the 27th distinct pattern both receive id `"A"`
(`groupLetters[26 % 26]`): columns with indices 2 and 28 carry different
patterns yet the same group id, and the 27th id is `"A"`, not the base-26
continuation `"AA"`. -/
theorem c3_counterexample :
    ((analyzeVariations c3grid ⟨"A", "B", 1, "C"⟩ c3groups).columnPatterns.getD 0
      ⟨"", "", "", ""⟩).variationGroup = "A" ∧
    ((analyzeVariations c3grid ⟨"A", "B", 1, "C"⟩ c3groups).columnPatterns.getD 26
      ⟨"", "", "", ""⟩).variationGroup = "A" ∧
    extractColumnPattern c3grid 2 ⟨"A", "B", 1⟩ c3sel ≠
      extractColumnPattern c3grid 28 ⟨"A", "B", 1⟩ c3sel := by
  decide

/-- C3, amended: during one grouping pass, group ids are assigned in the
order patterns are first seen scanning the data columns left to right, and
the id sequence is the single letters A, B, …, Z repeated cyclically (the
k-th first-seen pattern gets `groupLetters[k % 26]`, never `AA`); two groups
created for distinct pattern strings receive distinct ids provided at most 26
distinct patterns occur in the pass. -/
theorem c3_group_ids (rawData : Grid) (config : AnalyzeConfig)
    (variationGroups : List VariationGroupIn)
    (h : (firstSeen ((columnPatternMapOf rawData config variationGroups).map
      Prod.snd)).length ≤ 26) :
    patternToGroupMapOf rawData config variationGroups =
      letterAssignment (firstSeen
        ((columnPatternMapOf rawData config variationGroups).map Prod.snd)) ∧
    ((patternToGroupMapOf rawData config variationGroups).map Prod.snd).Nodup := by
  unfold patternToGroupMapOf
  exact ⟨bpg_canonical _, bpg_snd_nodup _ h⟩

/-- C3, witness: the amended statement instantiated on Scenario A. -/
theorem c3_group_ids_witness :
    ((firstSeen ((columnPatternMapOf scenA acfgA groupsA).map Prod.snd)).length ≤ 26) ∧
    (patternToGroupMapOf scenA acfgA groupsA =
      letterAssignment (firstSeen
        ((columnPatternMapOf scenA acfgA groupsA).map Prod.snd)) ∧
    ((patternToGroupMapOf scenA acfgA groupsA).map Prod.snd).Nodup) :=
  ⟨by decide, c3_group_ids scenA acfgA groupsA (by decide)⟩

theorem findDataColumnRange_inner_le (startIndex : Int) (row : Row) :
    ∀ (l : List Nat) (e : Int), e ≤ l.foldl
      (fun (e : Int) (j : Nat) =>
        if startIndex ≤ (j : Int) ∧ row.getD j "" ≠ "" ∧ jsTrim (row.getD j "") ≠ ""
        then max e (j : Int) else e) e := by
  intro l
  induction l with
  | nil => intro e; exact le_refl e
  | cons j rest ih =>
    intro e
    simp only [List.foldl_cons]
    refine le_trans ?_ (ih _)
    split
    · exact le_max_left _ _
    · exact le_refl e

theorem findDataColumnRange_outer_le (startIndex : Int) :
    ∀ (rows : List Row) (e : Int), e ≤ rows.foldl
      (fun (endIndex : Int) row =>
        (List.range row.length).reverse.foldl
          (fun (e : Int) (j : Nat) =>
            if startIndex ≤ (j : Int) ∧ row.getD j "" ≠ "" ∧ jsTrim (row.getD j "") ≠ ""
            then max e (j : Int) else e)
          endIndex) e := by
  intro rows
  induction rows with
  | nil => intro e; exact le_refl e
  | cons row rest ih =>
    intro e
    simp only [List.foldl_cons]
    exact le_trans (findDataColumnRange_inner_le startIndex row _ e) (ih _)

theorem findDataColumnRange_start_le_end (rawData : Grid) (startDataColumn : String) :
    (findDataColumnRange rawData startDataColumn).1 ≤
      (findDataColumnRange rawData startDataColumn).2 := by
  unfold findDataColumnRange
  exact findDataColumnRange_outer_le (columnLetterToIndex startDataColumn) rawData _

/-- C4, counterexample: with a Selection that samples zero rows (its only
item `"ZZZ"` occurs nowhere), the engine does not return an empty analysis:
every column's pattern is `""`, a group with id `"A"` is created for that
empty pattern, and both output collections are non-empty. -/
theorem c4_counterexample :
    extractColumnPattern gridTXO 0 pcfgA c4sel = "" ∧
    (analyzeVariations gridTXO ⟨"A", "B", 1, "A"⟩ c4groups).columnPatterns.map
      (fun cp => cp.variationGroup) = ["A", "A", "A"] ∧
    (analyzeVariations gridTXO ⟨"A", "B", 1, "A"⟩ c4groups).columnPatterns ≠ [] ∧
    (analyzeVariations gridTXO ⟨"A", "B", 1, "A"⟩ c4groups).variationGroups ≠ [] := by
  decide

/-- C4, amended: the `start > end` case cannot arise — `findDataColumnRange`
initialises the end index with the start index and only ever raises it, so
`start ≤ end` for every input — and a Selection sampling zero rows does not
fail and does not produce an empty analysis: every data-range column receives
the empty pattern, and a group (id `"A"`) is created for that empty pattern. -/
theorem c4_empty_data (rawData : Grid) (startDataColumn : String) :
    (findDataColumnRange rawData startDataColumn).1 ≤
      (findDataColumnRange rawData startDataColumn).2 ∧
    (analyzeVariations gridTXO ⟨"A", "B", 1, "A"⟩ c4groups).columnPatterns.length = 3 ∧
    patternToGroupMapOf gridTXO ⟨"A", "B", 1, "A"⟩ c4groups = [("", "A")] :=
  ⟨findDataColumnRange_start_le_end rawData startDataColumn, by decide, by decide⟩

theorem addItemToLast_map_name (fs : List Feature) (it : FeatureItem) :
    (addItemToLast fs it).map Feature.name = fs.map Feature.name := by
  induction fs with
  | nil => rfl
  | cons f rest ih =>
    cases rest with
    | nil => rfl
    | cons g rest2 =>
      simp only [addItemToLast, List.map_cons]
      rw [show (addItemToLast (g :: rest2) it).map Feature.name =
        (g :: rest2).map Feature.name from ih]
      rfl

theorem extractFeaturesLoop_map_name (fc ic : Int) :
    ∀ (rows : List Row) (acc : List Feature),
      (extractFeaturesLoop fc ic rows acc).map Feature.name =
        acc.map Feature.name ++ scannedFeatureNames fc ic rows := by
  intro rows
  induction rows with
  | nil => intro acc; simp [extractFeaturesLoop, scannedFeatureNames]
  | cons row rest ih =>
    intro acc
    simp only [extractFeaturesLoop, scannedFeatureNames]
    split_ifs with h1 h2 h3 h4 <;>
      simp_all [addItemToLast_map_name, ih]

theorem extractColumnPatternLoop_filter_absent (fc ic colIdx : Int) (sel : Selection)
    (F : String) :
    ∀ (rows : List Row) (cur : Option String) (pat : List String),
      F ∉ scannedFeatureNames fc ic rows →
      (∀ g, cur = some g → g ≠ F) →
      extractColumnPatternLoop fc ic colIdx (sel.filter (fun kv => kv.1 != F)) rows cur pat =
        extractColumnPatternLoop fc ic colIdx sel rows cur pat := by
  intro rows
  induction rows with
  | nil => intro cur pat _ _; rfl
  | cons row rest ih =>
    intro cur pat hF hcur
    simp only [extractColumnPatternLoop, scannedFeatureNames] at hF ⊢
    split_ifs at hF ⊢ with h1 h2 h3 h4 h5
    · rfl
    · rfl
    · cases hc : cur with
      | none => subst hc; exact ih none _ (by simpa using hF) hcur
      | some g =>
        subst hc
        simp only [lookup_filter_ne sel F g (hcur g rfl)]
        exact ih (some g) _ (by simpa using hF) hcur
    · cases hc : cur with
      | none => subst hc; exact ih none _ (by simpa using hF) hcur
      | some g =>
        subst hc
        simp only [lookup_filter_ne sel F g (hcur g rfl)]
        exact ih (some g) _ (by simpa using hF) hcur
    · have h' : F ≠ jsTrim (jsCell row fc) ∧ F ∉ scannedFeatureNames fc ic rest := by
        simpa [not_or] using hF
      simp only [lookup_filter_ne sel F _ (Ne.symm h'.1)]
      exact ih _ _ h'.2 (fun g hg => by
        injection hg with hg2
        rw [← hg2]
        exact Ne.symm h'.1)
    · have h' : F ≠ jsTrim (jsCell row fc) ∧ F ∉ scannedFeatureNames fc ic rest := by
        simpa [not_or] using hF
      simp only [lookup_filter_ne sel F _ (Ne.symm h'.1)]
      exact ih _ _ h'.2 (fun g hg => by
        injection hg with hg2
        rw [← hg2]
        exact Ne.symm h'.1)

/-- C5, counterexample: `gridTXO` has the single feature `T`; the Selection
`c5sel` additionally references the absent feature `M` with item `Z` (two
selected pairs in total). The pattern built for column 2 is `"O"` — a single
mark — not a pattern with a `"-"` mark in `M`'s position (which would be
`"O-"`): an absent feature contributes no marks at all. -/
theorem c5_counterexample :
    extractColumnPattern gridTXO 2 pcfgA c5sel = "O" ∧
    extractColumnPattern gridTXO 2 pcfgA c5sel ≠ "O-" ∧
    "M" ∉ (extractFeatures gridTXO pcfgA).map Feature.name ∧
    c5sel.length = 2 := by
  decide

/-- C5, amended: for every grid and every Selection, a feature name absent
from the extracted feature tree contributes nothing to a column's pattern —
the pattern is unchanged when the absent feature's entry is removed from the
Selection (rather than contributing a `"-"` mark per selected position), and
no error is raised; marks follow grid row order, one per matching row. -/
theorem c5_absent_feature (rawData : Grid) (columnIndex : Int)
    (config : PatternConfig) (sel : Selection) (F : String)
    (hF : F ∉ (extractFeatures rawData config).map Feature.name) :
    extractColumnPattern rawData columnIndex config sel =
      extractColumnPattern rawData columnIndex config
        (sel.filter (fun kv => kv.1 != F)) := by
  have h1 := extractFeaturesLoop_map_name (columnLetterToIndex config.featureColumn)
    (columnLetterToIndex config.itemColumn) (rowsFrom rawData (config.startRow - 1)) []
  unfold extractFeatures at hF
  rw [h1] at hF
  simp only [List.map_nil, List.nil_append] at hF
  unfold extractColumnPattern
  congr 1
  exact (extractColumnPatternLoop_filter_absent _ _ _ sel F _ none [] hF
    (fun g hg => Option.noConfusion hg)).symm

/-- C5, witness: the amended statement instantiated on `gridTXO` with the
absent feature `M`. -/
theorem c5_absent_feature_witness :
    ("M" ∉ (extractFeatures gridTXO pcfgA).map Feature.name) ∧
    extractColumnPattern gridTXO 2 pcfgA c5sel =
      extractColumnPattern gridTXO 2 pcfgA (c5sel.filter (fun kv => kv.1 != "M")) :=
  ⟨by decide, c5_absent_feature gridTXO 2 pcfgA c5sel "M" (by decide)⟩

theorem jsOr_some_empty (s : String) : jsOr (some s) "" = s := by
  show (if s = "" then "" else s) = s
  split_ifs with h
  · exact h.symm
  · rfl

theorem jsOr_some_ne (s d : String) (h : s ≠ "") : jsOr (some s) d = s := by
  show (if s = "" then d else s) = s
  rw [if_neg h]

theorem groupLetters_facts : ∀ x ∈ groupLetters, x ≠ "" ∧ x ≠ "?" := by decide

theorem intRange_mem_le (s e x : Int) (h : x ∈ intRange s e) : s ≤ x := by
  unfold intRange at h
  obtain ⟨k, hk, rfl⟩ := List.mem_map.mp h
  omega

theorem intRange_nodup (s e : Int) : (intRange s e).Nodup := by
  unfold intRange
  apply List.Nodup.map_on
  · intro a _ b _ hab
    omega
  · exact List.nodup_range _

theorem columnPatternsOf_map_letter (rawData : Grid) (config : AnalyzeConfig)
    (variationGroups : List VariationGroupIn) :
    (columnPatternsOf rawData config variationGroups).map (fun cp => cp.columnLetter) =
      (intRange (findDataColumnRange rawData config.startDataColumn).1
        (findDataColumnRange rawData config.startDataColumn).2).map
        indexToColumnLetter := by
  unfold columnPatternsOf
  rw [List.map_map]
  rfl

/-- C8, counterexample: the group letter recorded for a column in
`columnPatterns` does not refer to any entry of the returned
`variationGroups` collection — the letters are the pattern-group ids minted
during grouping, while `variationGroups` carries the caller's ids: here the
only column is assigned `"A"` but the only group id is `"g1"`. -/
theorem c8_counterexample :
    (analyzeVariations gridTXO ⟨"A", "B", 1, "C"⟩ c8groups).columnPatterns.map
      (fun cp => cp.variationGroup) = ["A"] ∧
    (analyzeVariations gridTXO ⟨"A", "B", 1, "C"⟩ c8groups).variationGroups.map
      (fun g => g.id) = ["g1"] ∧
    (∀ g ∈ (analyzeVariations gridTXO ⟨"A", "B", 1, "C"⟩ c8groups).variationGroups,
      g.id ≠ "A") := by
  decide

/-- C8, amended: for every analysis whose configured data-start column letter
decodes to a non-negative index, each column key appears exactly once in
`columnPatterns` (the column letters are pairwise distinct); the group letter
recorded per column is the id minted by the grouping pass, but it does not in
general reference an entry of the returned `variationGroups` collection,
which carries the caller's group ids. -/
theorem c8_column_keys_unique (rawData : Grid) (config : AnalyzeConfig)
    (variationGroups : List VariationGroupIn)
    (h : 0 ≤ columnLetterToIndex config.startDataColumn) :
    ((analyzeVariations rawData config variationGroups).columnPatterns.map
      (fun cp => cp.columnLetter)).Nodup := by
  have hcp : (analyzeVariations rawData config variationGroups).columnPatterns =
      columnPatternsOf rawData config variationGroups := rfl
  rw [hcp, columnPatternsOf_map_letter]
  have hstart : (findDataColumnRange rawData config.startDataColumn).1 =
      columnLetterToIndex config.startDataColumn := rfl
  apply List.Nodup.map_on
  · intro x hx y hy hxy
    have hsx := intRange_mem_le _ _ _ hx
    have hsy := intRange_mem_le _ _ _ hy
    rw [hstart] at hsx hsy
    exact indexToColumnLetter_injOn x y (by omega) (by omega) hxy
  · exact intRange_nodup _ _

/-- C8, witness: uniqueness of column keys on Scenario A. -/
theorem c8_column_keys_unique_witness :
    (0 ≤ columnLetterToIndex acfgA.startDataColumn) ∧
    ((analyzeVariations scenA acfgA groupsA).columnPatterns.map
      (fun cp => cp.columnLetter)).Nodup :=
  ⟨by decide, c8_column_keys_unique scenA acfgA groupsA (by decide)⟩

/-- C9: applying a rename map to a `VariationAnalysis` is atomic — in the
result, every group id and every column-mapping reference are rewritten by
the same substitution, so whenever every column mapping referenced an
existing group before the rename, it still does afterwards; and ids not
present in the rename map are unchanged. -/
theorem c9_updateLabels_atomic (analysis : VariationAnalysis)
    (mapRenames : List (String × String)) (variantRenames : List (Int × Int))
    (h : ∀ p ∈ analysis.columnMappings,
      p.2.mapId ∈ analysis.maps.map MapLabel.id ∧
      p.2.variantId ∈ analysis.variants.map VariantLabel.id) :
    (∀ p ∈ (updateLabels analysis mapRenames variantRenames).columnMappings,
      p.2.mapId ∈ (updateLabels analysis mapRenames variantRenames).maps.map
        MapLabel.id ∧
      p.2.variantId ∈ (updateLabels analysis mapRenames variantRenames).variants.map
        VariantLabel.id) ∧
    (∀ i, mapRenames.lookup i = none → applyRename mapRenames i = i) ∧
    (∀ i, variantRenames.lookup i = none → applyRenameVariant variantRenames i = i) := by
  refine ⟨?_, ?_, ?_⟩
  · intro p hp
    unfold updateLabels at hp ⊢
    simp only [List.mem_map] at hp
    obtain ⟨q, hq, rfl⟩ := hp
    obtain ⟨hq1, hq2⟩ := h q hq
    constructor
    · obtain ⟨m, hm, hmid⟩ := List.mem_map.mp hq1
      exact List.mem_map.mpr ⟨{ m with id := applyRename mapRenames m.id },
        List.mem_map.mpr ⟨m, hm, rfl⟩, by simp [hmid]⟩
    · obtain ⟨m, hm, hmid⟩ := List.mem_map.mp hq2
      exact List.mem_map.mpr ⟨{ m with id := applyRenameVariant variantRenames m.id },
        List.mem_map.mpr ⟨m, hm, rfl⟩, by simp [hmid]⟩
  · intro i hi
    unfold applyRename
    rw [hi]
  · intro i hi
    unfold applyRenameVariant
    rw [hi]

/-- C9, witness: the atomicity statement instantiated on a two-group
analysis with the rename `A` to `Base`. -/
theorem c9_updateLabels_atomic_witness :
    (∀ p ∈ c9analysis.columnMappings,
      p.2.mapId ∈ c9analysis.maps.map MapLabel.id ∧
      p.2.variantId ∈ c9analysis.variants.map VariantLabel.id) ∧
    ((∀ p ∈ (updateLabels c9analysis [("A", "Base")] []).columnMappings,
      p.2.mapId ∈ (updateLabels c9analysis [("A", "Base")] []).maps.map MapLabel.id ∧
      p.2.variantId ∈ (updateLabels c9analysis [("A", "Base")] []).variants.map
        VariantLabel.id) ∧
    (∀ i, ([("A", "Base")] : List (String × String)).lookup i = none →
      applyRename [("A", "Base")] i = i) ∧
    (∀ i, ([] : List (Int × Int)).lookup i = none → applyRenameVariant [] i = i)) :=
  ⟨by decide, c9_updateLabels_atomic c9analysis [("A", "Base")] [] (by decide)⟩

/-- C10: the `"?"` fallback in `analyzeVariations` is unreachable — every
column index in the data range has its pattern stored in `columnPatternMap`,
every such pattern is registered in `patternToGroupMap`, so every emitted
entry carries one of the 26 group letters minted during grouping and never
the `"?"` sentinel. -/
theorem c10_no_question_fallback (rawData : Grid) (config : AnalyzeConfig)
    (variationGroups : List VariationGroupIn) (cp : ColumnPatternOut)
    (hcp : cp ∈ (analyzeVariations rawData config variationGroups).columnPatterns) :
    cp.variationGroup ∈ groupLetters ∧ cp.variationGroup ≠ "?" := by
  have hcp2 : cp ∈ columnPatternsOf rawData config variationGroups := hcp
  unfold columnPatternsOf at hcp2
  simp only [List.mem_map] at hcp2
  obtain ⟨colIndex, hcol, rfl⟩ := hcp2
  simp only
  have hlk : (columnPatternMapOf rawData config variationGroups).lookup colIndex =
      some (extractColumnPattern rawData colIndex
        ⟨config.featureColumn, config.itemColumn, config.startRow⟩
        (selectedItemsMapOf variationGroups)) := by
    unfold columnPatternMapOf
    exact lookup_map_pair _ _ colIndex hcol
  rw [hlk, jsOr_some_empty]
  have hmem : extractColumnPattern rawData colIndex
      ⟨config.featureColumn, config.itemColumn, config.startRow⟩
      (selectedItemsMapOf variationGroups) ∈
      (columnPatternMapOf rawData config variationGroups).map Prod.snd := by
    unfold columnPatternMapOf
    simp only [List.map_map]
    exact List.mem_map.mpr ⟨colIndex, hcol, rfl⟩
  have hsome : ((patternToGroupMapOf rawData config variationGroups).lookup
      (extractColumnPattern rawData colIndex
        ⟨config.featureColumn, config.itemColumn, config.startRow⟩
        (selectedItemsMapOf variationGroups))).isSome := by
    unfold patternToGroupMapOf buildPatternGroups
    exact bpg_foldl_lookup_of_mem _ [] _ hmem
  obtain ⟨v, hv⟩ := Option.isSome_iff_exists.mp hsome
  have hvGL : v ∈ groupLetters := by
    have h2 : v ∈ (patternToGroupMapOf rawData config variationGroups).map Prod.snd :=
      lookup_mem_values _ _ _ hv
    unfold patternToGroupMapOf buildPatternGroups at h2
    rcases bpg_foldl_values _ [] v h2 with h3 | h3
    · simp at h3
    · exact h3
  rw [hv, jsOr_some_ne v "?" (groupLetters_facts v hvGL).1]
  exact ⟨hvGL, (groupLetters_facts v hvGL).2⟩

/-- C10, witness: the first Scenario A column entry carries letter `"A"`,
which is a minted group letter and not `"?"`. -/
theorem c10_no_question_fallback_witness :
    (⟨"C", "", "A", "#FFE5E5"⟩ : ColumnPatternOut) ∈
      (analyzeVariations scenA acfgA groupsA).columnPatterns ∧
    ((⟨"C", "", "A", "#FFE5E5"⟩ : ColumnPatternOut).variationGroup ∈ groupLetters ∧
     (⟨"C", "", "A", "#FFE5E5"⟩ : ColumnPatternOut).variationGroup ≠ "?") :=
  ⟨by decide, c10_no_question_fallback scenA acfgA groupsA _ (by decide)⟩

end VariationCalculator
